import Mathlib

/-!
# cepservice: race of two CEP lookup providers

Shallow embedding of `pkg/cepservice/cepservice.go`.

* `Address`, `BrasilAPIResponse`, `Result` are the three structs of the package.
* `ConvertBrasilAPIResponseToAddress` is the pure conversion.
* `fetchFromAPI` is the worker body: the HTTP client is a parameter (`Client`), the request
  is bound to the context it is given, and the effects of a worker (requests issued, values
  sent on the channel) are returned as data.
* `GetFasterAPIResult` is a transition system: the two goroutines, the buffered channel,
  the `Done` signal of the context and the final `select` are explicit state, and every
  interleaving of their steps is a list of `Event`s.
-/

namespace Cepservice

/-! ## Data model -/

/-- The struct `Address` (lines 11-17). -/
structure Address where
  CEP : String
  Logradouro : String
  Bairro : String
  Localidade : String
  UF : String
  deriving DecidableEq, Repr

/-- The struct `BrasilAPIResponse` (lines 19-25). -/
structure BrasilAPIResponse where
  CEP : String
  State : String
  City : String
  Neighborhood : String
  Street : String
  deriving DecidableEq, Repr

/-- The struct `Result` (lines 27-30). -/
structure Result where
  API : String
  Address : Address
  deriving DecidableEq, Repr

/-- A `context.Context` value, named by an identifier. Whether its `Done` channel is closed
changes over time and is part of the state of a call. -/
structure Context where
  id : Nat
  deriving DecidableEq, Repr

/-- Go zero value of `Address`: every field is the empty string. -/
def Address.zero : Address := ⟨"", "", "", "", ""⟩

/-- Go zero value of `BrasilAPIResponse`. -/
def BrasilAPIResponse.zero : BrasilAPIResponse := ⟨"", "", "", "", ""⟩

/-- Go zero value `Result{}`. -/
def Result.zero : Result := ⟨"", Address.zero⟩

/-- The function `ConvertBrasilAPIResponseToAddress` (lines 32-40). -/
def ConvertBrasilAPIResponseToAddress (response : BrasilAPIResponse) : Address :=
  { CEP := response.CEP
    Logradouro := response.Street
    Bairro := response.Neighborhood
    Localidade := response.City
    UF := response.State }

/-! ## The HTTP client, as a parameter -/

/-- What one `client.R().SetResult(&v).Get(url)` call hands back to `fetchFromAPI`: whether
`err != nil`, the value of `resp.StatusCode()`, and what the client decoded from the body into
the result variable `v` (`none` when nothing was decoded, so that `v` keeps the zero value it
was declared with; a body that carries only some keys of the schema decodes to a value whose
other fields are empty). -/
structure Reply (α : Type) where
  err : Bool
  statusCode : Int
  decoded : Option α

/-- The HTTP client: the reply the provider gives for a requested URL, for each of the two
result schemas, when the request is not cut short by its context. -/
structure Client where
  getBrasil : String → Reply BrasilAPIResponse
  getViaCEP : String → Reply Address

/-- Value of `brasilResponse` after the request: declared zero on line 46, filled by the client. -/
def Reply.brasilResult (reply : Reply BrasilAPIResponse) : BrasilAPIResponse :=
  reply.decoded.getD BrasilAPIResponse.zero

/-- Value of `viaCEPResponse` after the request: declared zero on line 59, filled by the client. -/
def Reply.viaCEPResult (reply : Reply Address) : Address :=
  reply.decoded.getD Address.zero

/-- The effect of `SetContext(ctx)` on a request (lines 48 and 61): when the `Done` signal of
the context has fired the request fails with the error of the context and nothing is decoded,
otherwise the reply of the provider comes back. -/
def Reply.withContext {α : Type} (fired : Bool) (reply : Reply α) : Reply α :=
  if fired then { err := true, statusCode := 0, decoded := none } else reply

/-- The guard `err != nil || resp.StatusCode() != 200` of lines 52 and 65. -/
def Reply.failed {α : Type} (reply : Reply α) : Bool :=
  reply.err || reply.statusCode != 200

/-! ## The worker -/

/-- Effects of one run of `fetchFromAPI`: the requests it issued (the context each was bound
to and its URL) and the values it sent on the channel `ch`, both in program order. The
function returns nothing. -/
structure FetchRun where
  requested : List (Context × String)
  sent : List Result
  deriving DecidableEq, Repr

/-- The function `fetchFromAPI(ctx, url, ch, apiName)` (lines 42-71). `fired` tells, for each
context, whether its `Done` signal has fired when the request returns; the sends on `ch` are
the field `sent` of the outcome. -/
def fetchFromAPI (client : Client) (fired : Context → Bool) (ctx : Context) (url : String)
    (apiName : String) : FetchRun :=
  if apiName = "BrasilAPI" then
    let reply := (client.getBrasil url).withContext (fired ctx)
    if reply.failed then
      { requested := [(ctx, url)], sent := [] }
    else
      let address := ConvertBrasilAPIResponseToAddress reply.brasilResult
      { requested := [(ctx, url)], sent := [{ API := apiName, Address := address }] }
  else if apiName = "ViaCEP" then
    let reply := (client.getViaCEP url).withContext (fired ctx)
    if reply.failed then
      { requested := [(ctx, url)], sent := [] }
    else
      { requested := [(ctx, url)], sent := [{ API := apiName, Address := reply.viaCEPResult }] }
  else
    { requested := [], sent := [] }

/-! ## The URL map -/

/-- The fragment of `fmt.Sprintf` the source uses: literal text is copied and a `%s` verb is
replaced by the next string operand, unchanged. -/
def sprintfChars : List Char → List String → List Char
  | [], _ => []
  | [c], _ => [c]
  | c :: d :: rest, args =>
    if c = '%' ∧ d = 's' then
      match args with
      | a :: more => a.data ++ sprintfChars rest more
      | [] => c :: sprintfChars (d :: rest) []
    else c :: sprintfChars (d :: rest) args

/-- The call `fmt.Sprintf(format, args...)` on string operands. -/
def Sprintf (format : String) (args : List String) : String :=
  ⟨sprintfChars format.data args⟩

/-- The map literal `urls` of lines 75-78, as an association list (a Go map has no order). -/
def urls (cep : String) : List (String × String) :=
  [ ("BrasilAPI", Sprintf "https://brasilapi.com.br/api/cep/v1/%s" [cep]),
    ("ViaCEP", Sprintf "http://viacep.com.br/ws/%s/json/" [cep]) ]

/-- Capacity of the channel made on line 74: `make(chan Result, 2)`. -/
def chanCap : Nat := 2

/-! ## The orchestrator as a transition system -/

/-- Where a `fetchFromAPI` goroutine stands: its request is still in flight, or the request
has returned and `toSend` are the channel sends it has not performed yet. -/
inductive Phase where
  | requesting
  | returned (toSend : List Result)
  deriving DecidableEq, Repr

/-- One goroutine started by `go fetchFromAPI(ctx, url, ch, apiName)` (line 81). -/
structure Worker where
  ctx : Context
  apiName : String
  url : String
  phase : Phase
  deriving DecidableEq, Repr

/-- State of one call of `GetFasterAPIResult`.
`ctx` is the context of the call and `done` tells whether `ctx.Done()` has fired,
`ch` is the buffer of the channel (oldest first),
`ret` is the pair returned by the call once its `select` has run, and `sentLog` records every
send performed so far (a history variable, never read by a step). -/
structure State where
  ctx : Context
  workers : List Worker
  ch : List Result
  done : Bool
  ret : Option (Result × Option String)
  sentLog : List Result
  deriving DecidableEq, Repr

/-- The steps of the system.
`respond i`: the request of worker `i` returns (with the error of its context when that
context is done by then) and the guard of line 52 or 65 is evaluated.
`send i`: worker `i` performs its channel send (line 57 or 69).
`deadline`: the context deadline fires.
`recv`: the `select` takes `case result := <-ch` (lines 85-86).
`timeout`: the `select` takes `case <-ctx.Done()` (lines 87-88). -/
inductive Event where
  | respond (i : Nat)
  | send (i : Nat)
  | deadline
  | recv
  | timeout
  deriving DecidableEq, Repr

/-- The loop of lines 80-82: one goroutine per entry of the map, each given `ctx`. -/
def launch (ctx : Context) (entries : List (String × String)) : List Worker :=
  entries.map fun e => { ctx := ctx, apiName := e.1, url := e.2, phase := Phase.requesting }

/-- State of the call when it reaches its `select`: channel made, workers launched.
`expired` tells whether the context passed in was already done. -/
def init (ctx : Context) (cep : String) (expired : Bool) : State :=
  { ctx := ctx, workers := launch ctx (urls cep), ch := [], done := expired, ret := none,
    sentLog := [] }

/-- The `Done` signals as the requests of a call see them: the context of the call has fired
when `done` is set; the call knows nothing of other contexts. -/
def State.fired (s : State) : Context → Bool :=
  fun c => decide (c = s.ctx) && s.done

/-- Return statement of the deadline branch (line 88). -/
def timeoutReturn : Result × Option String := (Result.zero, some "timeout exceeded")

/-- One step; `none` when the step cannot be taken in this state (a receive on an empty
channel, a send on a full one, `ctx.Done()` not fired, a `select` that has already run). -/
def step (client : Client) (s : State) : Event → Option State
  | Event.respond i =>
    match s.workers[i]? with
    | some w =>
      match w.phase with
      | Phase.requesting =>
        some { s with workers :=
          s.workers.set i { w with
            phase := Phase.returned (fetchFromAPI client s.fired w.ctx w.url w.apiName).sent } }
      | Phase.returned _ => none
    | none => none
  | Event.send i =>
    match s.workers[i]? with
    | some w =>
      match w.phase with
      | Phase.returned (r :: rest) =>
        if s.ch.length < chanCap then
          some { s with
            workers := s.workers.set i { w with phase := Phase.returned rest }
            ch := s.ch ++ [r]
            sentLog := s.sentLog ++ [r] }
        else none
      | _ => none
    | none => none
  | Event.deadline => if s.done then none else some { s with done := true }
  | Event.recv =>
    match s.ret, s.ch with
    | none, r :: rest => some { s with ch := rest, ret := some (r, none) }
    | _, _ => none
  | Event.timeout =>
    match s.ret with
    | none => if s.done then some { s with ret := some timeoutReturn } else none
    | some _ => none

/-- Run a schedule: the steps of a list of events, in order. -/
def run (client : Client) (s : State) : List Event → Option State
  | [] => some s
  | e :: es => (step client s e).bind fun t => run client t es

/-- The function `GetFasterAPIResult(ctx, cep)` (lines 73-90) under a schedule, `expired`
telling whether `ctx` was already done when the call was made: what the call has
returned after these steps, `none` while its `select` is still waiting (or when the schedule
contains a step that cannot be taken). -/
def GetFasterAPIResult (client : Client) (ctx : Context) (expired : Bool) (cep : String)
    (schedule : List Event) : Option (Result × Option String) :=
  (run client (init ctx cep expired) schedule).bind fun s => s.ret

/-! ## Sample clients -/

/-- A context for the sample calls. -/
def sampleCtx : Context := ⟨0⟩

/-- The reply of scenario 1 of the specification. -/
def brasiliaReply : Reply BrasilAPIResponse :=
  { err := false, statusCode := 200,
    decoded := some { CEP := "70150900", State := "DF", City := "Brasília",
                      Neighborhood := "Zona Cívico-Administrativa",
                      Street := "Praça dos Três Poderes" } }

/-- The Result a worker builds from `brasiliaReply`. -/
def brasiliaResult : Result :=
  ⟨"BrasilAPI", ⟨"70150900", "Praça dos Três Poderes", "Zona Cívico-Administrativa",
    "Brasília", "DF"⟩⟩

/-- State of the call for "70150900" once the BrasilAPI result has been sent and received,
the ViaCEP request still being in flight. -/
def brasiliaReceived : State :=
  { ctx := sampleCtx,
    workers := [⟨sampleCtx, "BrasilAPI", "https://brasilapi.com.br/api/cep/v1/70150900",
                   Phase.returned []⟩,
                ⟨sampleCtx, "ViaCEP", "http://viacep.com.br/ws/70150900/json/",
                   Phase.requesting⟩],
    ch := [], done := false, ret := some (brasiliaResult, none),
    sentLog := [brasiliaResult] }

/-- A client whose BrasilAPI request succeeds and whose ViaCEP request fails in transport. -/
def brasilOnlyClient : Client :=
  { getBrasil := fun _ => brasiliaReply
    getViaCEP := fun _ => { err := true, statusCode := 0, decoded := none } }

/-- A client to which both providers answer HTTP 500. -/
def bothDownClient : Client :=
  { getBrasil := fun _ => { err := false, statusCode := 500, decoded := none }
    getViaCEP := fun _ => { err := false, statusCode := 500, decoded := none } }

/-- A client to which both providers answer HTTP 200 with a body that carries none of the
fields of the schema, so that nothing is decoded and no error is raised. -/
def emptyBodyClient : Client :=
  { getBrasil := fun _ => { err := false, statusCode := 200, decoded := none }
    getViaCEP := fun _ => { err := false, statusCode := 200, decoded := none } }

/-- A client to which each provider answers HTTP 200 with a body of the schema of the other
provider: only the key `cep` is shared, so only that field is decoded. -/
def swappedSchemaClient : Client :=
  { getBrasil := fun _ =>
      { err := false, statusCode := 200, decoded := some ⟨"70150900", "", "", "", ""⟩ }
    getViaCEP := fun _ =>
      { err := false, statusCode := 200, decoded := some ⟨"70150900", "", "", "", ""⟩ } }

/-- A Result is one a worker of the call for `cep` emits: its API names a provider whose
request returned without error and with status 200, and its Address is the converted body of
that reply for "BrasilAPI", the decoded body itself for "ViaCEP". -/
def Emitted (client : Client) (cep : String) (r : Result) : Prop :=
  (r.API = "BrasilAPI" ∧
    (client.getBrasil ("https://brasilapi.com.br/api/cep/v1/" ++ cep)).err = false ∧
    (client.getBrasil ("https://brasilapi.com.br/api/cep/v1/" ++ cep)).statusCode = 200 ∧
    r.Address = ConvertBrasilAPIResponseToAddress
      (client.getBrasil ("https://brasilapi.com.br/api/cep/v1/" ++ cep)).brasilResult) ∨
  (r.API = "ViaCEP" ∧
    (client.getViaCEP ("http://viacep.com.br/ws/" ++ cep ++ "/json/")).err = false ∧
    (client.getViaCEP ("http://viacep.com.br/ws/" ++ cep ++ "/json/")).statusCode = 200 ∧
    r.Address = (client.getViaCEP ("http://viacep.com.br/ws/" ++ cep ++ "/json/")).viaCEPResult)

/-! ## Invariant of the transition system -/

/-- Number of channel sends a worker may still perform. -/
def Phase.pot : Phase → Nat
  | Phase.requesting => 1
  | Phase.returned l => l.length

/-- Number of channel sends the workers may still perform, all together. -/
def potSum : List Worker → Nat
  | [] => 0
  | w :: t => w.phase.pot + potSum t

/-- What a worker was launched with: its context, name and URL. -/
def Worker.args (w : Worker) : Context × String × String := (w.ctx, w.apiName, w.url)

/-- What holds in every state a call with context `ctx` for `cep` can reach. -/
structure Inv (client : Client) (ctx : Context) (cep : String) (s : State) : Prop where
  ctxEq : s.ctx = ctx
  shape : s.workers.map Worker.args = (urls cep).map fun e => (ctx, e.1, e.2)
  pending : ∀ w ∈ s.workers, ∀ l, w.phase = Phase.returned l → ∀ r ∈ l, Emitted client cep r
  logged : ∀ r ∈ s.sentLog, Emitted client cep r
  buffered : ∀ r ∈ s.ch, r ∈ s.sentLog
  received : ∀ r, s.ret = some (r, none) → r ∈ s.sentLog
  timedOut : ∀ r m, s.ret = some (r, some m) → s.done = true ∧ (r, some m) = timeoutReturn
  budget : s.sentLog.length + potSum s.workers ≤ chanCap
  pendLen : ∀ w ∈ s.workers, ∀ l, w.phase = Phase.returned l → l.length ≤ 1
  bufLen : s.ch.length ≤ s.sentLog.length

/-- The deadline has fired and no provider has delivered: nothing is buffered or was sent,
and every worker, bound to the context of the call, holds no result. -/
structure Silent (s : State) : Prop where
  fired : s.done = true
  empty : s.ch = []
  unsent : s.sentLog = []
  idle : ∀ w ∈ s.workers,
    w.ctx = s.ctx ∧ (w.phase = Phase.requesting ∨ w.phase = Phase.returned [])

/-! ## Lemmas on the URL map and the worker -/

theorem sprintf_brasil (c : String) :
    Sprintf "https://brasilapi.com.br/api/cep/v1/%s" [c]
      = "https://brasilapi.com.br/api/cep/v1/" ++ c := by
  apply String.ext
  simp [Sprintf, sprintfChars]

theorem sprintf_viacep (c : String) :
    Sprintf "http://viacep.com.br/ws/%s/json/" [c]
      = "http://viacep.com.br/ws/" ++ c ++ "/json/" := by
  apply String.ext
  simp [Sprintf, sprintfChars]

theorem viacep_ne_brasil : ¬ ("ViaCEP" = "BrasilAPI") := by decide

theorem fetch_ctx_fired (client : Client) (fired : Context → Bool) (ctx : Context)
    (url apiName : String) (h : fired ctx = true) :
    (fetchFromAPI client fired ctx url apiName).sent = [] := by
  unfold fetchFromAPI
  split
  · simp [Reply.withContext, Reply.failed, h]
  · split
    · simp [Reply.withContext, Reply.failed, h]
    · rfl

theorem fetch_brasil_failed (client : Client) (fired : Context → Bool) (ctx : Context)
    (url : String)
    (h : (client.getBrasil url).err = true ∨ (client.getBrasil url).statusCode ≠ 200) :
    (fetchFromAPI client fired ctx url "BrasilAPI").sent = [] := by
  cases hf : fired ctx with
  | true => exact fetch_ctx_fired client fired ctx url _ hf
  | false =>
    rcases h with he | hc
    · simp [fetchFromAPI, Reply.withContext, Reply.failed, hf, he]
    · simp [fetchFromAPI, Reply.withContext, Reply.failed, hf, hc]

theorem fetch_viacep_failed (client : Client) (fired : Context → Bool) (ctx : Context)
    (url : String)
    (h : (client.getViaCEP url).err = true ∨ (client.getViaCEP url).statusCode ≠ 200) :
    (fetchFromAPI client fired ctx url "ViaCEP").sent = [] := by
  cases hf : fired ctx with
  | true => exact fetch_ctx_fired client fired ctx url _ hf
  | false =>
    rcases h with he | hc
    · simp [fetchFromAPI, Reply.withContext, Reply.failed, hf, he, viacep_ne_brasil]
    · simp [fetchFromAPI, Reply.withContext, Reply.failed, hf, hc, viacep_ne_brasil]

theorem fetch_brasil_ok (client : Client) (fired : Context → Bool) (ctx : Context)
    (url : String) (hf : fired ctx = false) (he : (client.getBrasil url).err = false)
    (hc : (client.getBrasil url).statusCode = 200) :
    (fetchFromAPI client fired ctx url "BrasilAPI").sent =
      [⟨"BrasilAPI", ConvertBrasilAPIResponseToAddress
        ((client.getBrasil url).decoded.getD ⟨"", "", "", "", ""⟩)⟩] := by
  simp [fetchFromAPI, Reply.withContext, Reply.failed, hf, he, hc, Reply.brasilResult,
    BrasilAPIResponse.zero]

theorem fetch_viacep_ok (client : Client) (fired : Context → Bool) (ctx : Context)
    (url : String) (hf : fired ctx = false) (he : (client.getViaCEP url).err = false)
    (hc : (client.getViaCEP url).statusCode = 200) :
    (fetchFromAPI client fired ctx url "ViaCEP").sent =
      [⟨"ViaCEP", (client.getViaCEP url).decoded.getD ⟨"", "", "", "", ""⟩⟩] := by
  simp [fetchFromAPI, Reply.withContext, Reply.failed, hf, he, hc, Reply.viaCEPResult,
    Address.zero, viacep_ne_brasil]

theorem fetch_sent_length_le (client : Client) (fired : Context → Bool) (ctx : Context)
    (url apiName : String) :
    (fetchFromAPI client fired ctx url apiName).sent.length ≤ 1 := by
  unfold fetchFromAPI
  split
  · dsimp only
    split <;> simp
  · split
    · dsimp only
      split <;> simp
    · simp

theorem fetch_sent_mem (client : Client) (fired : Context → Bool) (ctx : Context)
    (url apiName : String) (r : Result)
    (h : r ∈ (fetchFromAPI client fired ctx url apiName).sent) :
    (apiName = "BrasilAPI" ∧ (client.getBrasil url).err = false ∧
        (client.getBrasil url).statusCode = 200 ∧
        r = ⟨"BrasilAPI", ConvertBrasilAPIResponseToAddress (client.getBrasil url).brasilResult⟩) ∨
    (apiName = "ViaCEP" ∧ (client.getViaCEP url).err = false ∧
        (client.getViaCEP url).statusCode = 200 ∧
        r = ⟨"ViaCEP", (client.getViaCEP url).viaCEPResult⟩) := by
  cases hf : fired ctx with
  | true =>
    rw [fetch_ctx_fired client fired ctx url apiName hf] at h
    simp at h
  | false =>
    unfold fetchFromAPI at h
    split at h
    · rename_i hn
      subst hn
      simp only [hf, Reply.withContext, Bool.false_eq_true, if_false] at h
      split at h
      · simp at h
      · rename_i hx
        simp only [Reply.failed, Bool.or_eq_true, bne_iff_ne, ne_eq, not_or, Bool.not_eq_true,
          Decidable.not_not] at hx
        simp only [List.mem_singleton] at h
        exact Or.inl ⟨rfl, hx.1, hx.2, h⟩
    · split at h
      · rename_i hn
        subst hn
        simp only [hf, Reply.withContext, Bool.false_eq_true, if_false] at h
        split at h
        · simp at h
        · rename_i hx
          simp only [Reply.failed, Bool.or_eq_true, bne_iff_ne, ne_eq, not_or,
            Bool.not_eq_true, Decidable.not_not] at hx
          simp only [List.mem_singleton] at h
          exact Or.inr ⟨rfl, hx.1, hx.2, h⟩
      · simp at h

theorem fetch_sent_emitted (client : Client) (fired : Context → Bool) (ctx : Context)
    (cep url apiName : String) (r : Result) (he : (apiName, url) ∈ urls cep)
    (h : r ∈ (fetchFromAPI client fired ctx url apiName).sent) : Emitted client cep r := by
  simp only [urls, sprintf_brasil, sprintf_viacep, List.mem_cons, List.mem_singleton,
    List.not_mem_nil, or_false, Prod.mk.injEq] at he
  rcases he with ⟨rfl, rfl⟩ | ⟨rfl, rfl⟩
  · rcases fetch_sent_mem client fired ctx _ _ r h with ⟨_, h1, h2, h3⟩ | ⟨hn, _⟩
    · subst h3
      exact Or.inl ⟨rfl, h1, h2, rfl⟩
    · simp at hn
  · rcases fetch_sent_mem client fired ctx _ _ r h with ⟨hn, _⟩ | ⟨_, h1, h2, h3⟩
    · simp at hn
    · subst h3
      exact Or.inr ⟨rfl, h1, h2, rfl⟩

theorem sum_pot_set (l : List Worker) (i : Nat) (w v : Worker) (h : l[i]? = some w) :
    potSum (l.set i v) + w.phase.pot = potSum l + v.phase.pot := by
  induction l generalizing i with
  | nil => simp at h
  | cons a t ih =>
    cases i with
    | zero =>
      simp only [List.getElem?_cons_zero, Option.some.injEq] at h
      subst h
      simp only [List.set_cons_zero, potSum]
      omega
    | succ n =>
      simp only [List.getElem?_cons_succ] at h
      have := ih n h
      simp only [List.set_cons_succ, potSum]
      omega

theorem args_set (l : List Worker) (i : Nat) (w v : Worker) (h : l[i]? = some w)
    (hv : v.args = w.args) : (l.set i v).map Worker.args = l.map Worker.args := by
  induction l generalizing i with
  | nil => simp
  | cons a t ih =>
    cases i with
    | zero =>
      simp only [List.getElem?_cons_zero, Option.some.injEq] at h
      subst h
      simp [hv]
    | succ n =>
      simp only [List.getElem?_cons_succ] at h
      simp [ih n h]

theorem inv_entry (client : Client) (ctx : Context) (cep : String) (s : State)
    (hs : Inv client ctx cep s) (w : Worker) (hw : w ∈ s.workers) :
    w.ctx = ctx ∧ (w.apiName, w.url) ∈ urls cep := by
  have hm : w.args ∈ s.workers.map Worker.args := List.mem_map_of_mem _ hw
  rw [hs.shape] at hm
  simp only [List.mem_map] at hm
  obtain ⟨e, he, heq⟩ := hm
  simp only [Worker.args, Prod.mk.injEq] at heq
  refine ⟨heq.1.symm, ?_⟩
  rw [← heq.2.1, ← heq.2.2]
  exact he

theorem inv_init (client : Client) (ctx : Context) (cep : String) (expired : Bool) :
    Inv client ctx cep (init ctx cep expired) where
  ctxEq := rfl
  shape := by simp [init, launch, Worker.args]
  pending := by
    intro w hw l hl
    simp [init, launch] at hw
    rcases hw with ⟨a, b, _, rfl⟩
    simp at hl
  logged := by simp [init]
  buffered := by simp [init]
  received := by simp [init]
  timedOut := by simp [init]
  budget := by simp [init, launch, urls, potSum, Phase.pot, chanCap]
  pendLen := by
    intro w hw l hl
    simp [init, launch] at hw
    rcases hw with ⟨a, b, _, rfl⟩
    simp at hl
  bufLen := by simp [init]

theorem inv_step (client : Client) (ctx : Context) (cep : String) (s t : State) (e : Event)
    (hs : Inv client ctx cep s) (h : step client s e = some t) : Inv client ctx cep t := by
  cases e with
  | respond i =>
    simp only [step] at h
    split at h
    · rename_i w hw
      split at h
      · rename_i hph
        simp only [Option.some.injEq] at h
        subst h
        have hmem : w ∈ s.workers := List.getElem?_mem hw
        have hent := inv_entry client ctx cep s hs w hmem
        refine ⟨hs.ctxEq, ?_, ?_, hs.logged, hs.buffered, hs.received, hs.timedOut, ?_, ?_,
          hs.bufLen⟩
        · exact (args_set s.workers i w ⟨w.ctx, w.apiName, w.url,
            Phase.returned (fetchFromAPI client s.fired w.ctx w.url w.apiName).sent⟩
            hw rfl).trans hs.shape
        · intro v hv l hl r hr
          rcases List.mem_or_eq_of_mem_set hv with hv | rfl
          · exact hs.pending v hv l hl r hr
          · simp only [Phase.returned.injEq] at hl
            subst hl
            exact fetch_sent_emitted client s.fired w.ctx cep w.url w.apiName r hent.2 hr
        · have hsum := sum_pot_set s.workers i w
            { w with phase :=
                Phase.returned (fetchFromAPI client s.fired w.ctx w.url w.apiName).sent } hw
          have hlen := fetch_sent_length_le client s.fired w.ctx w.url w.apiName
          have hb := hs.budget
          rw [hph] at hsum
          simp only [Phase.pot] at hsum
          show s.sentLog.length + potSum (s.workers.set i _) ≤ chanCap
          omega
        · intro v hv l hl
          rcases List.mem_or_eq_of_mem_set hv with hv | rfl
          · exact hs.pendLen v hv l hl
          · simp only [Phase.returned.injEq] at hl
            subst hl
            exact fetch_sent_length_le client s.fired w.ctx w.url w.apiName
      · simp at h
    · simp at h
  | send i =>
    simp only [step] at h
    split at h
    · rename_i w hw
      split at h
      · rename_i r rest hph
        split at h
        · rename_i hcap
          simp only [Option.some.injEq] at h
          subst h
          have hmem : w ∈ s.workers := List.getElem?_mem hw
          have hr : Emitted client cep r :=
            hs.pending w hmem (r :: rest) hph r (List.mem_cons_self _ _)
          refine ⟨hs.ctxEq, ?_, ?_, ?_, ?_, ?_, hs.timedOut, ?_, ?_, ?_⟩
          · exact (args_set s.workers i w ⟨w.ctx, w.apiName, w.url, Phase.returned rest⟩
              hw rfl).trans hs.shape
          · intro v hv l hl x hx
            rcases List.mem_or_eq_of_mem_set hv with hv | rfl
            · exact hs.pending v hv l hl x hx
            · simp only [Phase.returned.injEq] at hl
              subst hl
              exact hs.pending w hmem (r :: rest) hph x (List.mem_cons_of_mem _ hx)
          · intro x hx
            simp only [List.mem_append, List.mem_singleton] at hx
            rcases hx with hx | rfl
            · exact hs.logged x hx
            · exact hr
          · intro x hx
            simp only [List.mem_append, List.mem_singleton] at hx ⊢
            rcases hx with hx | rfl
            · exact Or.inl (hs.buffered x hx)
            · exact Or.inr rfl
          · intro x hx
            simp only [List.mem_append]
            exact Or.inl (hs.received x hx)
          · have hsum := sum_pot_set s.workers i w { w with phase := Phase.returned rest } hw
            have hb := hs.budget
            rw [hph] at hsum
            simp only [Phase.pot, List.length_cons] at hsum
            show (s.sentLog ++ [r]).length + potSum (s.workers.set i _) ≤ chanCap
            simp only [List.length_append, List.length_singleton]
            omega
          · intro v hv l hl
            rcases List.mem_or_eq_of_mem_set hv with hv | rfl
            · exact hs.pendLen v hv l hl
            · simp only [Phase.returned.injEq] at hl
              subst hl
              have := hs.pendLen w hmem (r :: rest) hph
              simp only [List.length_cons] at this
              omega
          · have := hs.bufLen
            simp only [List.length_append, List.length_singleton]
            omega
        · simp at h
      · simp at h
    · simp at h
  | deadline =>
    simp only [step] at h
    split at h
    · simp at h
    · simp only [Option.some.injEq] at h
      subst h
      exact ⟨hs.ctxEq, hs.shape, hs.pending, hs.logged, hs.buffered, hs.received,
        fun r m hr => ⟨rfl, (hs.timedOut r m hr).2⟩, hs.budget, hs.pendLen, hs.bufLen⟩
  | recv =>
    simp only [step] at h
    split at h
    · rename_i r rest hret hch
      simp only [Option.some.injEq] at h
      subst h
      refine ⟨hs.ctxEq, hs.shape, hs.pending, hs.logged, ?_, ?_, ?_, hs.budget, hs.pendLen, ?_⟩
      · intro x hx
        exact hs.buffered x (by rw [hch]; exact List.mem_cons_of_mem _ hx)
      · intro x hx
        simp only [Option.some.injEq, Prod.mk.injEq, and_true] at hx
        subst hx
        exact hs.buffered r (by rw [hch]; exact List.mem_cons_self _ _)
      · intro x m hx
        simp at hx
      · have := hs.bufLen
        rw [hch] at this
        simp only [List.length_cons] at this
        simp only []
        omega
    · simp at h
  | timeout =>
    simp only [step] at h
    split at h
    · split at h
      · rename_i hret hdone
        simp only [Option.some.injEq] at h
        subst h
        refine ⟨hs.ctxEq, hs.shape, hs.pending, hs.logged, hs.buffered, ?_, ?_, hs.budget,
          hs.pendLen, hs.bufLen⟩
        · intro x hx
          simp [timeoutReturn] at hx
        · intro x m hx
          simp only [Option.some.injEq] at hx
          exact ⟨hdone, hx.symm⟩
      · simp at h
    · simp at h

theorem inv_run (client : Client) (ctx : Context) (cep : String) (es : List Event)
    (s t : State) (hs : Inv client ctx cep s) (h : run client s es = some t) :
    Inv client ctx cep t := by
  induction es generalizing s with
  | nil =>
    simp only [run, Option.some.injEq] at h
    subst h
    exact hs
  | cons e es ih =>
    simp only [run] at h
    cases hstep : step client s e with
    | none => simp [hstep] at h
    | some u =>
      rw [hstep] at h
      exact ih u (inv_step client ctx cep s u e hs hstep) h

theorem inv_reachable (client : Client) (ctx : Context) (cep : String) (expired : Bool)
    (es : List Event) (t : State) (h : run client (init ctx cep expired) es = some t) :
    Inv client ctx cep t :=
  inv_run client ctx cep es _ t (inv_init client ctx cep expired) h

/-! ## Lemmas on the `select` -/

theorem pot_le_potSum (l : List Worker) (i : Nat) (w : Worker) (h : l[i]? = some w) :
    w.phase.pot ≤ potSum l := by
  induction l generalizing i with
  | nil => simp at h
  | cons a t ih =>
    cases i with
    | zero =>
      simp only [List.getElem?_cons_zero, Option.some.injEq] at h
      subst h
      simp only [potSum]
      omega
    | succ n =>
      simp only [List.getElem?_cons_succ] at h
      have := ih n h
      simp only [potSum]
      omega

theorem step_ret_keep (client : Client) (s t : State) (e : Event) (x : Result × Option String)
    (hx : s.ret = some x) (h : step client s e = some t) : t.ret = some x := by
  cases e with
  | respond i =>
    simp only [step] at h
    split at h
    · split at h
      · simp only [Option.some.injEq] at h
        subst h
        exact hx
      · simp at h
    · simp at h
  | send i =>
    simp only [step] at h
    split at h
    · split at h
      · split at h
        · simp only [Option.some.injEq] at h
          subst h
          exact hx
        · simp at h
      · simp at h
    · simp at h
  | deadline =>
    simp only [step] at h
    split at h
    · simp at h
    · simp only [Option.some.injEq] at h
      subst h
      exact hx
  | recv =>
    simp only [step] at h
    split at h
    · rename_i hret _
      rw [hret] at hx
      simp at hx
    · simp at h
  | timeout =>
    simp only [step] at h
    split at h
    · rename_i hret
      rw [hret] at hx
      simp at hx
    · simp at h

theorem run_ret_keep (client : Client) (es : List Event) (s t : State)
    (x : Result × Option String) (hx : s.ret = some x) (h : run client s es = some t) :
    t.ret = some x := by
  induction es generalizing s with
  | nil =>
    simp only [run, Option.some.injEq] at h
    subst h
    exact hx
  | cons e es ih =>
    simp only [run] at h
    cases hstep : step client s e with
    | none => simp [hstep] at h
    | some u =>
      rw [hstep] at h
      exact ih u (step_ret_keep client s u e x hx hstep) h

theorem step_ret_origin (client : Client) (s t : State) (e : Event) (r : Result)
    (err : Option String) (hs : s.ret = none) (h : step client s e = some t)
    (ht : t.ret = some (r, err)) :
    (e = Event.timeout ∧ s.done = true ∧ r = Result.zero ∧ err = some "timeout exceeded") ∨
    (e = Event.recv ∧ err = none ∧ ∃ rest, s.ch = r :: rest) := by
  cases e with
  | respond i =>
    simp only [step] at h
    split at h
    · split at h
      · simp only [Option.some.injEq] at h
        subst h
        rw [hs] at ht
        simp at ht
      · simp at h
    · simp at h
  | send i =>
    simp only [step] at h
    split at h
    · split at h
      · split at h
        · simp only [Option.some.injEq] at h
          subst h
          rw [hs] at ht
          simp at ht
        · simp at h
      · simp at h
    · simp at h
  | deadline =>
    simp only [step] at h
    split at h
    · simp at h
    · simp only [Option.some.injEq] at h
      subst h
      rw [hs] at ht
      simp at ht
  | recv =>
    simp only [step] at h
    split at h
    · rename_i x rest _ hch
      simp only [Option.some.injEq] at h
      subst h
      simp only [Option.some.injEq, Prod.mk.injEq] at ht
      obtain ⟨rfl, rfl⟩ := ht
      exact Or.inr ⟨rfl, rfl, rest, hch⟩
    · simp at h
  | timeout =>
    simp only [step] at h
    split at h
    · split at h
      · rename_i hdone
        simp only [Option.some.injEq] at h
        subst h
        simp only [timeoutReturn, Option.some.injEq, Prod.mk.injEq] at ht
        obtain ⟨rfl, rfl⟩ := ht
        exact Or.inl ⟨rfl, hdone, rfl, rfl⟩
      · simp at h
    · simp at h

theorem run_ret_origin (client : Client) (es : List Event) (s t : State)
    (x : Result × Option String) (hs : s.ret = none) (h : run client s es = some t)
    (ht : t.ret = some x) :
    ∃ pre e post u v, es = pre ++ e :: post ∧ run client s pre = some u ∧ u.ret = none ∧
      step client u e = some v ∧ v.ret = some x := by
  induction es generalizing s with
  | nil =>
    simp only [run, Option.some.injEq] at h
    subst h
    rw [hs] at ht
    simp at ht
  | cons e es ih =>
    simp only [run] at h
    cases hstep : step client s e with
    | none => simp [hstep] at h
    | some v =>
      rw [hstep] at h
      simp only [Option.some_bind] at h
      cases hv : v.ret with
      | none =>
        obtain ⟨pre, e1, post, u, v1, hes, hpre, hu, hst, hv1⟩ := ih v hv h
        refine ⟨e :: pre, e1, post, u, v1, by simp [hes], ?_, hu, hst, hv1⟩
        simp [run, hstep, hpre]
      | some y =>
        have := run_ret_keep client es v t y hv h
        rw [this] at ht
        simp only [Option.some.injEq] at ht
        subst ht
        exact ⟨[], e, es, s, v, by simp, by simp [run], hs, hstep, hv⟩

/-! ## The conversion and the URL map -/

/-- C1: for every BrasilAPIResponse `r`, `ConvertBrasilAPIResponseToAddress r` is the Address
with CEP = r.CEP, Logradouro = r.Street, Bairro = r.Neighborhood, Localidade = r.City and
UF = r.State; the Praça dos Três Poderes response converts to the address of scenario 1. -/
theorem convert_brasil_fields :
    (∀ r : BrasilAPIResponse,
      (ConvertBrasilAPIResponseToAddress r).CEP = r.CEP ∧
      (ConvertBrasilAPIResponseToAddress r).Logradouro = r.Street ∧
      (ConvertBrasilAPIResponseToAddress r).Bairro = r.Neighborhood ∧
      (ConvertBrasilAPIResponseToAddress r).Localidade = r.City ∧
      (ConvertBrasilAPIResponseToAddress r).UF = r.State) ∧
    ConvertBrasilAPIResponseToAddress
        { CEP := "70150900", State := "DF", City := "Brasília",
          Neighborhood := "Zona Cívico-Administrativa", Street := "Praça dos Três Poderes" }
      = { CEP := "70150900", Logradouro := "Praça dos Três Poderes",
          Bairro := "Zona Cívico-Administrativa", Localidade := "Brasília", UF := "DF" } :=
  ⟨fun _ => ⟨rfl, rfl, rfl, rfl, rfl⟩, rfl⟩

/-- C8: for every CEP string `c`, taken verbatim, the URL map has exactly two entries:
"BrasilAPI" maps to "https://brasilapi.com.br/api/cep/v1/" followed by `c`, and "ViaCEP" maps
to "http://viacep.com.br/ws/" followed by `c` followed by "/json/". -/
theorem urls_two_entries (c : String) :
    (urls c).length = 2 ∧
    ((urls c).map Prod.fst).Nodup ∧
    (urls c).lookup "BrasilAPI" = some ("https://brasilapi.com.br/api/cep/v1/" ++ c) ∧
    (urls c).lookup "ViaCEP" = some ("http://viacep.com.br/ws/" ++ c ++ "/json/") ∧
    ∀ k v, (k, v) ∈ urls c ↔
      (k = "BrasilAPI" ∧ v = "https://brasilapi.com.br/api/cep/v1/" ++ c) ∨
      (k = "ViaCEP" ∧ v = "http://viacep.com.br/ws/" ++ c ++ "/json/") := by
  refine ⟨rfl, ?_, ?_, ?_, ?_⟩
  · simp [urls]
  · simp [urls, List.lookup, sprintf_brasil]
  · have hne : ("ViaCEP" == "BrasilAPI") = false := by decide
    simp [urls, List.lookup, sprintf_viacep, hne]
  · intro k v
    simp [urls, sprintf_brasil, sprintf_viacep]

/-! ## The worker -/

/-- C4: for each of the two provider names, `fetchFromAPI` performs exactly one send when the
request returns no error and the status is exactly 200, the value sent being
`Result{API: apiName, Address: converted body}` (for "BrasilAPI" the decoded fields mapped as
in the conversion, for "ViaCEP" the decoded Address itself, the zero value when nothing was
decoded); when the request returns an error (of the transport or of its context) or the
status is anything other than 200 it performs no send. -/
theorem fetch_sends_iff_success (client : Client) (fired : Context → Bool) (ctx : Context)
    (url : String) :
    ((fired ctx = false ∧ (client.getBrasil url).err = false ∧
        (client.getBrasil url).statusCode = 200 →
        (∀ b, (client.getBrasil url).decoded = some b →
          (fetchFromAPI client fired ctx url "BrasilAPI").sent =
            [{ API := "BrasilAPI",
               Address := { CEP := b.CEP, Logradouro := b.Street, Bairro := b.Neighborhood,
                            Localidade := b.City, UF := b.State } }]) ∧
        ((client.getBrasil url).decoded = none →
          (fetchFromAPI client fired ctx url "BrasilAPI").sent =
            [{ API := "BrasilAPI", Address := ⟨"", "", "", "", ""⟩ }])) ∧
      (fired ctx = true ∨ (client.getBrasil url).err = true ∨
        (client.getBrasil url).statusCode ≠ 200 →
        (fetchFromAPI client fired ctx url "BrasilAPI").sent = [])) ∧
    ((fired ctx = false ∧ (client.getViaCEP url).err = false ∧
        (client.getViaCEP url).statusCode = 200 →
        (∀ a, (client.getViaCEP url).decoded = some a →
          (fetchFromAPI client fired ctx url "ViaCEP").sent =
            [{ API := "ViaCEP", Address := a }]) ∧
        ((client.getViaCEP url).decoded = none →
          (fetchFromAPI client fired ctx url "ViaCEP").sent =
            [{ API := "ViaCEP", Address := ⟨"", "", "", "", ""⟩ }])) ∧
      (fired ctx = true ∨ (client.getViaCEP url).err = true ∨
        (client.getViaCEP url).statusCode ≠ 200 →
        (fetchFromAPI client fired ctx url "ViaCEP").sent = [])) := by
  refine ⟨⟨?_, ?_⟩, ?_, ?_⟩
  · rintro ⟨hf, he, hc⟩
    have h := fetch_brasil_ok client fired ctx url hf he hc
    refine ⟨fun b hb => ?_, fun hb => ?_⟩
    · rw [h, hb]
      rfl
    · rw [h, hb]
      rfl
  · rintro (hf | h)
    · exact fetch_ctx_fired client fired ctx url _ hf
    · exact fetch_brasil_failed client fired ctx url h
  · rintro ⟨hf, he, hc⟩
    have h := fetch_viacep_ok client fired ctx url hf he hc
    refine ⟨fun a ha => ?_, fun ha => ?_⟩
    · rw [h, ha]
      rfl
    · rw [h, ha]
      rfl
  · rintro (hf | h)
    · exact fetch_ctx_fired client fired ctx url _ hf
    · exact fetch_viacep_failed client fired ctx url h

/-- C7, as stated, fails: with status 200 and no error reported by the client, a body from
which nothing of the schema is decoded (for ViaCEP, a body such as `{"erro": true}`) makes
each worker send one Result whose Address has every field empty, and a body of the other
schema, sharing only the key `cep`, makes it send one Result with only the CEP filled. -/
theorem undecoded_body_is_sent :
    (emptyBodyClient.getBrasil "https://brasilapi.com.br/api/cep/v1/00000000").decoded = none ∧
    (emptyBodyClient.getViaCEP "http://viacep.com.br/ws/00000000/json/").decoded = none ∧
    (fetchFromAPI emptyBodyClient (fun _ => false) sampleCtx
        "https://brasilapi.com.br/api/cep/v1/00000000" "BrasilAPI").sent
      = [{ API := "BrasilAPI",
           Address := { CEP := "", Logradouro := "", Bairro := "", Localidade := "", UF := "" } }] ∧
    (fetchFromAPI emptyBodyClient (fun _ => false) sampleCtx
        "http://viacep.com.br/ws/00000000/json/" "ViaCEP").sent
      = [{ API := "ViaCEP",
           Address := { CEP := "", Logradouro := "", Bairro := "", Localidade := "", UF := "" } }] ∧
    (fetchFromAPI swappedSchemaClient (fun _ => false) sampleCtx
        "https://brasilapi.com.br/api/cep/v1/70150900" "BrasilAPI").sent
      = [{ API := "BrasilAPI",
           Address := { CEP := "70150900", Logradouro := "", Bairro := "", Localidade := "",
                        UF := "" } }] ∧
    (fetchFromAPI swappedSchemaClient (fun _ => false) sampleCtx
        "http://viacep.com.br/ws/70150900/json/" "ViaCEP").sent
      = [{ API := "ViaCEP",
           Address := { CEP := "70150900", Logradouro := "", Bairro := "", Localidade := "",
                        UF := "" } }] := by
  decide

/-- C7, amended: `fetchFromAPI` has no check of its own on the body. Whatever the body, it
sends nothing exactly when the request returns an error or a status other than 200; when the
request returns no error and status 200 it sends exactly one Result whose Address holds the
fields the client decoded from the body and the empty string in every other field: all five
empty when nothing was decoded, only the CEP filled when only the key `cep` was decoded. -/
theorem body_is_never_checked (client : Client) (fired : Context → Bool) (ctx : Context)
    (url : String) :
    ((fired ctx = false ∧ (client.getBrasil url).err = false ∧
        (client.getBrasil url).statusCode = 200 →
        ((client.getBrasil url).decoded = none →
          (fetchFromAPI client fired ctx url "BrasilAPI").sent =
            [{ API := "BrasilAPI", Address := ⟨"", "", "", "", ""⟩ }]) ∧
        (∀ c, (client.getBrasil url).decoded = some ⟨c, "", "", "", ""⟩ →
          (fetchFromAPI client fired ctx url "BrasilAPI").sent =
            [{ API := "BrasilAPI", Address := ⟨c, "", "", "", ""⟩ }]) ∧
        (∀ b, (client.getBrasil url).decoded = some b →
          (fetchFromAPI client fired ctx url "BrasilAPI").sent =
            [{ API := "BrasilAPI",
               Address := ⟨b.CEP, b.Street, b.Neighborhood, b.City, b.State⟩ }])) ∧
      (fired ctx = true ∨ (client.getBrasil url).err = true ∨
        (client.getBrasil url).statusCode ≠ 200 →
        (fetchFromAPI client fired ctx url "BrasilAPI").sent = [])) ∧
    ((fired ctx = false ∧ (client.getViaCEP url).err = false ∧
        (client.getViaCEP url).statusCode = 200 →
        ((client.getViaCEP url).decoded = none →
          (fetchFromAPI client fired ctx url "ViaCEP").sent =
            [{ API := "ViaCEP", Address := ⟨"", "", "", "", ""⟩ }]) ∧
        (∀ c, (client.getViaCEP url).decoded = some ⟨c, "", "", "", ""⟩ →
          (fetchFromAPI client fired ctx url "ViaCEP").sent =
            [{ API := "ViaCEP", Address := ⟨c, "", "", "", ""⟩ }]) ∧
        (∀ a, (client.getViaCEP url).decoded = some a →
          (fetchFromAPI client fired ctx url "ViaCEP").sent =
            [{ API := "ViaCEP", Address := a }])) ∧
      (fired ctx = true ∨ (client.getViaCEP url).err = true ∨
        (client.getViaCEP url).statusCode ≠ 200 →
        (fetchFromAPI client fired ctx url "ViaCEP").sent = [])) := by
  refine ⟨⟨?_, ?_⟩, ?_, ?_⟩
  · rintro ⟨hf, he, hc⟩
    have h := fetch_brasil_ok client fired ctx url hf he hc
    refine ⟨fun hb => ?_, fun c hb => ?_, fun b hb => ?_⟩
    · rw [h, hb]
      rfl
    · rw [h, hb]
      rfl
    · rw [h, hb]
      rfl
  · rintro (hf | h)
    · exact fetch_ctx_fired client fired ctx url _ hf
    · exact fetch_brasil_failed client fired ctx url h
  · rintro ⟨hf, he, hc⟩
    have h := fetch_viacep_ok client fired ctx url hf he hc
    refine ⟨fun ha => ?_, fun c ha => ?_, fun a ha => ?_⟩
    · rw [h, ha]
      rfl
    · rw [h, ha]
      rfl
    · rw [h, ha]
      rfl
  · rintro (hf | h)
    · exact fetch_ctx_fired client fired ctx url _ hf
    · exact fetch_viacep_failed client fired ctx url h

/-! ## The orchestrator -/

/-- C9: `GetFasterAPIResult` launches exactly one worker per entry of its URL map, each given
the name and URL of that entry and the context of the call, and the worker list keeps this
shape in every reachable state; every name of the map is one `fetchFromAPI` dispatches on, so
every launched worker issues exactly one request, to its own URL and bound to that context (a
name outside the two would issue none). All workers send on the one channel of the call, and
all are bound to the one `Done` signal the `select` waits on: once it has fired, the request
of any worker still in flight sends nothing. -/
theorem one_worker_per_entry (client : Client) (ctx : Context) (cep : String)
    (expired : Bool) :
    (init ctx cep expired).workers.length = (urls cep).length ∧
    (init ctx cep expired).ctx = ctx ∧
    (∀ i : Nat, (init ctx cep expired).workers[i]? =
      (urls cep)[i]?.map fun e => (⟨ctx, e.1, e.2, Phase.requesting⟩ : Worker)) ∧
    (∀ schedule s, run client (init ctx cep expired) schedule = some s →
      s.ctx = ctx ∧
      s.workers.map (fun w => (w.ctx, w.apiName, w.url))
        = (urls cep).map fun e => (ctx, e.1, e.2)) ∧
    (∀ w ∈ (init ctx cep expired).workers,
      (w.apiName = "BrasilAPI" ∨ w.apiName = "ViaCEP") ∧ w.ctx = ctx ∧
      ∀ fired, (fetchFromAPI client fired w.ctx w.url w.apiName).requested = [(ctx, w.url)]) ∧
    (∀ fired c name url, name ≠ "BrasilAPI" → name ≠ "ViaCEP" →
      fetchFromAPI client fired c url name = { requested := [], sent := [] }) ∧
    (∀ (s t : State) (i : Nat), step client s (Event.send i) = some t →
      ∃ r, t.ch = s.ch ++ [r] ∧ t.done = s.done ∧ t.ctx = s.ctx) ∧
    (∀ schedule s, run client (init ctx cep expired) schedule = some s → s.done = true →
      ∀ i w, s.workers[i]? = some w → w.phase = Phase.requesting →
        ∃ t, step client s (Event.respond i) = some t ∧
          t.workers[i]? = some { w with phase := Phase.returned [] } ∧ t.ch = s.ch) := by
  refine ⟨by simp [init, launch], rfl, ?_, ?_, ?_, ?_, ?_, ?_⟩
  · intro i
    simp [init, launch]
  · intro schedule s h
    have hinv := inv_reachable client ctx cep expired schedule s h
    exact ⟨hinv.ctxEq, hinv.shape⟩
  · intro w hw
    simp only [init, launch, urls, List.map_cons, List.map_nil, List.mem_cons,
      List.mem_singleton, List.not_mem_nil, or_false] at hw
    rcases hw with rfl | rfl
    · refine ⟨Or.inl rfl, rfl, fun fired => ?_⟩
      simp only [fetchFromAPI, if_true]
      split <;> rfl
    · refine ⟨Or.inr rfl, rfl, fun fired => ?_⟩
      simp only [fetchFromAPI, viacep_ne_brasil, if_false, if_true]
      split <;> rfl
  · intro fired c name url h1 h2
    simp [fetchFromAPI, h1, h2]
  · intro s t i h
    simp only [step] at h
    split at h
    · split at h
      · rename_i r rest _
        split at h
        · simp only [Option.some.injEq] at h
          subst h
          exact ⟨r, rfl, rfl, rfl⟩
        · simp at h
      · simp at h
    · simp at h
  · intro schedule s h hd i w hw hph
    have hinv := inv_reachable client ctx cep expired schedule s h
    have hctx : w.ctx = s.ctx :=
      (inv_entry client ctx cep s hinv w (List.getElem?_mem hw)).1.trans hinv.ctxEq.symm
    have hfired : s.fired w.ctx = true := by simp [State.fired, hctx, hd]
    have hsent := fetch_ctx_fired client s.fired w.ctx w.url w.apiName hfired
    have hlt : i < s.workers.length := by
      rcases Nat.lt_or_ge i s.workers.length with h1 | h1
      · exact h1
      · rw [List.getElem?_eq_none h1] at hw
        simp at hw
    refine ⟨{ s with workers := s.workers.set i { w with phase := Phase.returned [] } },
      ?_, ?_, rfl⟩
    · simp [step, hw, hph, hsent]
    · simp [hlt]

/-- C3: `GetFasterAPIResult` returns a non-nil error only through the deadline branch of its
`select`, taken in a state where `Done` has fired; the error is then exactly
"timeout exceeded" and the Result is the zero value. Otherwise it returns, with a nil error,
the Result at the head of the channel, unchanged. No other error is ever returned. -/
theorem return_is_timeout_or_received (client : Client) (ctx : Context) (expired : Bool)
    (cep : String)
    (schedule : List Event) (r : Result) (err : Option String)
    (h : GetFasterAPIResult client ctx expired cep schedule = some (r, err)) :
    (err = none ∨ err = some "timeout exceeded") ∧
    ∃ pre e post u,
      schedule = pre ++ e :: post ∧ run client (init ctx cep expired) pre = some u ∧ u.ret = none ∧
      ((err ≠ none → e = Event.timeout ∧ u.done = true ∧ r = Result.zero ∧
          r.API = "" ∧ r.Address = ⟨"", "", "", "", ""⟩) ∧
       (err = none → e = Event.recv ∧ ∃ rest, u.ch = r :: rest)) := by
  unfold GetFasterAPIResult at h
  cases hrun : run client (init ctx cep expired) schedule with
  | none => simp [hrun] at h
  | some t =>
    rw [hrun] at h
    simp only [Option.some_bind] at h
    obtain ⟨pre, e, post, u, v, hes, hpre, hu, hst, hv⟩ :=
      run_ret_origin client schedule (init ctx cep expired) t (r, err) rfl hrun h
    rcases step_ret_origin client u v e r err hu hst hv with ⟨he, hd, hr, herr⟩ | ⟨he, herr, hch⟩
    · refine ⟨Or.inr herr, pre, e, post, u, hes, hpre, hu, ?_, ?_⟩
      · intro _
        subst hr
        exact ⟨he, hd, rfl, rfl, rfl⟩
      · intro hn
        rw [hn] at herr
        simp at herr
    · refine ⟨Or.inl herr, pre, e, post, u, hes, hpre, hu, ?_, ?_⟩
      · intro hn
        exact absurd herr hn
      · intro _
        exact ⟨he, hch⟩

/-- Witness of C3: BrasilAPI answers, the value is received, the error is nil. -/
theorem return_is_timeout_or_received_witness :
    GetFasterAPIResult brasilOnlyClient sampleCtx false "70150900"
        [Event.respond 0, Event.send 0, Event.recv]
      = some (brasiliaResult, none) ∧
    ((none : Option String) = none ∨ (none : Option String) = some "timeout exceeded") ∧
    ∃ pre e post u,
      [Event.respond 0, Event.send 0, Event.recv] = pre ++ e :: post ∧
      run brasilOnlyClient (init sampleCtx "70150900" false) pre = some u ∧ u.ret = none ∧
      (((none : Option String) ≠ none → e = Event.timeout ∧ u.done = true ∧
          brasiliaResult = Result.zero ∧
          brasiliaResult.API = "" ∧ brasiliaResult.Address = ⟨"", "", "", "", ""⟩) ∧
       ((none : Option String) = none → e = Event.recv ∧ ∃ rest, u.ch = brasiliaResult :: rest)) :=
  ⟨by decide,
   return_is_timeout_or_received brasilOnlyClient sampleCtx false "70150900"
      [Event.respond 0, Event.send 0, Event.recv] brasiliaResult none (by decide)⟩

/-- C5: if both provider workers fail (request error or status other than 200), the channel
stays empty whatever the schedule, so `GetFasterAPIResult` has not returned in any state
where the deadline has not fired, the receive branch can never be taken, and once the
deadline has fired the deadline branch can be taken and returns the timeout failure. -/
theorem both_fail_only_timeout (client : Client) (ctx : Context) (cep : String)
    (expired : Bool)
    (schedule : List Event) (s : State)
    (hB : (client.getBrasil ("https://brasilapi.com.br/api/cep/v1/" ++ cep)).err = true ∨
          (client.getBrasil ("https://brasilapi.com.br/api/cep/v1/" ++ cep)).statusCode ≠ 200)
    (hV : (client.getViaCEP ("http://viacep.com.br/ws/" ++ cep ++ "/json/")).err = true ∨
          (client.getViaCEP ("http://viacep.com.br/ws/" ++ cep ++ "/json/")).statusCode ≠ 200)
    (h : run client (init ctx cep expired) schedule = some s) :
    s.ch = [] ∧ s.sentLog = [] ∧
    (s.done = false → s.ret = none) ∧
    (∀ x, s.ret = some x → s.done = true ∧ x = (Result.zero, some "timeout exceeded")) ∧
    step client s Event.recv = none ∧
    (s.ret = none → s.done = true →
      ∃ t, step client s Event.timeout = some t ∧
        t.ret = some (Result.zero, some "timeout exceeded")) := by
  have hinv := inv_reachable client ctx cep expired schedule s h
  have hlog : s.sentLog = [] := by
    apply List.eq_nil_iff_forall_not_mem.mpr
    intro r hr
    rcases hinv.logged r hr with ⟨_, he, hc, _⟩ | ⟨_, he, hc, _⟩
    · rcases hB with h | h
      · rw [he] at h
        simp at h
      · exact h hc
    · rcases hV with h | h
      · rw [he] at h
        simp at h
      · exact h hc
  have hch : s.ch = [] := by
    apply List.eq_nil_iff_forall_not_mem.mpr
    intro r hr
    have := hinv.buffered r hr
    rw [hlog] at this
    simp at this
  have hret : ∀ x, s.ret = some x → s.done = true ∧ x = (Result.zero, some "timeout exceeded") := by
    rintro ⟨r, err⟩ hx
    cases err with
    | none =>
      have := hinv.received r hx
      rw [hlog] at this
      simp at this
    | some m => exact hinv.timedOut r m hx
  refine ⟨hch, hlog, ?_, hret, ?_, ?_⟩
  · intro hd
    cases hx : s.ret with
    | none => rfl
    | some x =>
      have := (hret x hx).1
      rw [hd] at this
      simp at this
  · simp only [step, hch]
    split <;> simp_all
  · intro hn hd
    exact ⟨{ s with ret := some timeoutReturn }, by simp [step, hn, hd], rfl⟩

/-- Witness of C5: both providers answer HTTP 500; after both requests have returned and
before the deadline fires the call has not returned, and it cannot receive. -/
theorem both_fail_only_timeout_witness :
    run bothDownClient (init sampleCtx "70150900" false) [Event.respond 0, Event.respond 1]
      = some { ctx := sampleCtx,
               workers := [⟨sampleCtx, "BrasilAPI", "https://brasilapi.com.br/api/cep/v1/70150900",
                              Phase.returned []⟩,
                           ⟨sampleCtx, "ViaCEP", "http://viacep.com.br/ws/70150900/json/",
                              Phase.returned []⟩],
               ch := [], done := false, ret := none, sentLog := [] } ∧
    GetFasterAPIResult bothDownClient sampleCtx false "70150900"
      [Event.respond 0, Event.respond 1, Event.deadline, Event.timeout]
      = some (Result.zero, some "timeout exceeded") ∧
    step bothDownClient
      { ctx := sampleCtx,
               workers := [⟨sampleCtx, "BrasilAPI", "https://brasilapi.com.br/api/cep/v1/70150900",
                       Phase.returned []⟩,
                    ⟨sampleCtx, "ViaCEP", "http://viacep.com.br/ws/70150900/json/", Phase.returned []⟩],
        ch := [], done := false, ret := none, sentLog := [] } Event.recv = none :=
  ⟨by decide, by decide,
   (both_fail_only_timeout bothDownClient sampleCtx "70150900" false
      [Event.respond 0, Event.respond 1] _ (Or.inr (by decide)) (Or.inr (by decide))
      (by decide)).2.2.2.2.1⟩

/-- C10: the capacity of the result channel (2) is at least the number of workers launched
(2) and each worker sends at most once, so in every reachable state of a call the number of
results sent, and with it the number buffered, never exceeds the capacity; a worker that has
a result to send can always send it, also after the call has returned. -/
theorem sends_never_exceed_capacity (client : Client) (ctx : Context) (cep : String)
    (expired : Bool)
    (schedule : List Event) (s : State)
    (h : run client (init ctx cep expired) schedule = some s) :
    chanCap = 2 ∧ (init ctx cep expired).workers.length = 2 ∧
    (init ctx cep expired).workers.length ≤ chanCap ∧
    (∀ w ∈ s.workers, (∀ fired, (fetchFromAPI client fired w.ctx w.url w.apiName).sent.length ≤ 1) ∧
      ∀ l, w.phase = Phase.returned l → l.length ≤ 1) ∧
    s.sentLog.length ≤ chanCap ∧ s.ch.length ≤ chanCap ∧
    (∀ i w r rest, s.workers[i]? = some w → w.phase = Phase.returned (r :: rest) →
      ∃ t, step client s (Event.send i) = some t ∧ t.ch = s.ch ++ [r]) := by
  have hinv := inv_reachable client ctx cep expired schedule s h
  have hb := hinv.budget
  have hl := hinv.bufLen
  refine ⟨rfl, rfl, by simp [init, launch, urls, chanCap], ?_, by omega, by omega, ?_⟩
  · intro w hw
    exact ⟨fun fired => fetch_sent_length_le client fired w.ctx w.url w.apiName,
      hinv.pendLen w hw⟩
  · intro i w r rest hw hph
    have hp := pot_le_potSum s.workers i w hw
    rw [hph] at hp
    simp only [Phase.pot, List.length_cons] at hp
    have hlt : s.ch.length < chanCap := by omega
    refine ⟨{ s with
      workers := s.workers.set i { w with phase := Phase.returned rest }
      ch := s.ch ++ [r]
      sentLog := s.sentLog ++ [r] }, ?_, rfl⟩
    simp [step, hw, hph, hlt]

/-- Witness of C10: both providers succeed, one result has been received and the call has
returned; the second worker still sends without blocking. -/
theorem sends_never_exceed_capacity_witness :
    run emptyBodyClient (init sampleCtx "70150900" false)
      [Event.respond 0, Event.respond 1, Event.send 1, Event.recv]
      = some { ctx := sampleCtx,
               workers := [⟨sampleCtx, "BrasilAPI", "https://brasilapi.com.br/api/cep/v1/70150900",
                              Phase.returned [⟨"BrasilAPI", Address.zero⟩]⟩,
                           ⟨sampleCtx, "ViaCEP", "http://viacep.com.br/ws/70150900/json/",
                              Phase.returned []⟩],
               ch := [], done := false, ret := some (⟨"ViaCEP", Address.zero⟩, none),
               sentLog := [⟨"ViaCEP", Address.zero⟩] } ∧
    ∃ t, step emptyBodyClient
      { ctx := sampleCtx,
               workers := [⟨sampleCtx, "BrasilAPI", "https://brasilapi.com.br/api/cep/v1/70150900",
                       Phase.returned [⟨"BrasilAPI", Address.zero⟩]⟩,
                    ⟨sampleCtx, "ViaCEP", "http://viacep.com.br/ws/70150900/json/", Phase.returned []⟩],
        ch := [], done := false, ret := some (⟨"ViaCEP", Address.zero⟩, none),
        sentLog := [⟨"ViaCEP", Address.zero⟩] } (Event.send 0) = some t ∧
      t.ch = [] ++ [⟨"BrasilAPI", Address.zero⟩] :=
  ⟨by decide,
   (sends_never_exceed_capacity emptyBodyClient sampleCtx "70150900" false
      [Event.respond 0, Event.respond 1, Event.send 1, Event.recv] _ (by decide)).2.2.2.2.2.2
      0 ⟨sampleCtx, "BrasilAPI", "https://brasilapi.com.br/api/cep/v1/70150900",
          Phase.returned [⟨"BrasilAPI", Address.zero⟩]⟩
      ⟨"BrasilAPI", Address.zero⟩ [] (by decide) rfl⟩

/-- C2, as stated, fails: BrasilAPI answers status 200 without error while the deadline has
not fired, the deadline fires before the value is received, and the call returns the timeout
failure; this happens both when the worker has not yet reached its send and when the value
is already in the channel (the `select` may take either ready branch). -/
theorem success_before_deadline_may_time_out :
    brasiliaReply.err = false ∧ brasiliaReply.statusCode = 200 ∧
    run brasilOnlyClient (init sampleCtx "70150900" false) [Event.respond 0]
      = some { ctx := sampleCtx,
               workers := [⟨sampleCtx, "BrasilAPI", "https://brasilapi.com.br/api/cep/v1/70150900",
                              Phase.returned [brasiliaResult]⟩,
                           ⟨sampleCtx, "ViaCEP", "http://viacep.com.br/ws/70150900/json/",
                              Phase.requesting⟩],
               ch := [], done := false, ret := none, sentLog := [] } ∧
    GetFasterAPIResult brasilOnlyClient sampleCtx false "70150900"
      [Event.respond 0, Event.deadline, Event.timeout]
      = some (Result.zero, some "timeout exceeded") ∧
    GetFasterAPIResult brasilOnlyClient sampleCtx false "70150900"
      [Event.respond 0, Event.send 0, Event.deadline, Event.timeout]
      = some (Result.zero, some "timeout exceeded") := by
  decide

/-- C2, amended: in every reachable state of a call, a Result returned with a nil error is
one a worker emitted (its API is "BrasilAPI" or "ViaCEP", that provider answered without
error and with status 200, and its Address is the converted body, respectively the decoded
body); and when the `select` runs with a result in the channel and the deadline not fired,
only the receive branch can be taken and the call returns that result with a nil error.
A worker whose request succeeded is never prevented from delivering: with the deadline not
fired, the schedule respond, send, receive returns its Result. -/
theorem received_result_is_emitted (client : Client) (ctx : Context) (cep : String)
    (expired : Bool)
    (schedule : List Event) (s : State)
    (h : run client (init ctx cep expired) schedule = some s) :
    (∀ r, s.ret = some (r, none) → Emitted client cep r) ∧
    (s.ret = none → s.ch ≠ [] → s.done = false →
      step client s Event.timeout = none ∧
      ∃ r rest t, s.ch = r :: rest ∧ step client s Event.recv = some t ∧
        t.ret = some (r, none) ∧ Emitted client cep r) ∧
    (∀ i w r, (init ctx cep false).workers[i]? = some w →
      (fetchFromAPI client (fun _ => false) w.ctx w.url w.apiName).sent = [r] →
      GetFasterAPIResult client ctx false cep [Event.respond i, Event.send i, Event.recv]
        = some (r, none)) := by
  have hinv := inv_reachable client ctx cep expired schedule s h
  refine ⟨fun r hr => hinv.logged r (hinv.received r hr), ?_, ?_⟩
  · intro hn hch hd
    refine ⟨by simp [step, hn, hd], ?_⟩
    cases hc : s.ch with
    | nil => exact absurd hc hch
    | cons r rest =>
      refine ⟨r, rest, { s with ch := rest, ret := some (r, none) }, rfl, ?_, rfl, ?_⟩
      · simp [step, hn, hc]
      · exact hinv.logged r (hinv.buffered r (by rw [hc]; simp))
  · intro i w r hw hsent
    have hcap : (0 : Nat) < chanCap := by decide
    have hf : ∀ ws : List Worker,
        State.fired ⟨ctx, ws, [], false, none, []⟩ = fun _ => false := by
      intro ws
      funext c
      simp [State.fired]
    match i, hw with
    | 0, hw =>
      simp only [init, launch, urls, List.map_cons, List.map_nil, List.getElem?_cons_zero,
        Option.some.injEq] at hw
      subst hw
      simp only [] at hsent
      simp [GetFasterAPIResult, run, step, init, launch, urls, hf, hsent, hcap]
    | 1, hw =>
      simp only [init, launch, urls, List.map_cons, List.map_nil, List.getElem?_cons_succ,
        List.getElem?_cons_zero, Option.some.injEq] at hw
      subst hw
      simp only [] at hsent
      simp [GetFasterAPIResult, run, step, init, launch, urls, hf, hsent, hcap]
    | n + 2, hw =>
      simp [init, launch, urls] at hw

/-- Witness of C2, amended: BrasilAPI has answered and sent, the deadline has not fired; the
call can only receive, and returns the BrasilAPI result with a nil error. -/
theorem received_result_is_emitted_witness :
    run brasilOnlyClient (init sampleCtx "70150900" false) [Event.respond 0, Event.send 0, Event.recv]
      = some brasiliaReceived ∧
    Emitted brasilOnlyClient "70150900" brasiliaResult :=
  ⟨by decide,
   (received_result_is_emitted brasilOnlyClient sampleCtx "70150900" false
      [Event.respond 0, Event.send 0, Event.recv] brasiliaReceived (by decide)).1
      brasiliaResult rfl⟩

theorem silent_step (client : Client) (s t : State) (e : Event) (hs : Silent s)
    (h : step client s e = some t) : Silent t ∧ t.ctx = s.ctx := by
  cases e with
  | respond i =>
    simp only [step] at h
    split at h
    · rename_i w hw
      split at h
      · simp only [Option.some.injEq] at h
        subst h
        have hmem : w ∈ s.workers := List.getElem?_mem hw
        have hfired : s.fired w.ctx = true := by simp [State.fired, (hs.idle w hmem).1, hs.fired]
        have hsent := fetch_ctx_fired client s.fired w.ctx w.url w.apiName hfired
        refine ⟨⟨hs.fired, hs.empty, hs.unsent, ?_⟩, rfl⟩
        intro v hv
        rcases List.mem_or_eq_of_mem_set hv with hv | rfl
        · exact hs.idle v hv
        · exact ⟨(hs.idle w hmem).1, Or.inr (by rw [hsent])⟩
      · simp at h
    · simp at h
  | send i =>
    simp only [step] at h
    split at h
    · rename_i w hw
      split at h
      · rename_i r rest hph
        rcases (hs.idle w (List.getElem?_mem hw)).2 with hq | hq
        · rw [hq] at hph
          simp at hph
        · rw [hq] at hph
          simp at hph
      · simp at h
    · simp at h
  | deadline =>
    simp only [step, hs.fired, if_true] at h
    simp at h
  | recv =>
    simp only [step] at h
    split at h
    · rename_i r rest _ hch
      rw [hs.empty] at hch
      simp at hch
    · simp at h
  | timeout =>
    simp only [step] at h
    split at h
    · split at h
      · simp only [Option.some.injEq] at h
        subst h
        exact ⟨⟨hs.fired, hs.empty, hs.unsent, hs.idle⟩, rfl⟩
      · simp at h
    · simp at h

theorem silent_run (client : Client) (es : List Event) (s t : State) (hs : Silent s)
    (h : run client s es = some t) : Silent t := by
  induction es generalizing s with
  | nil =>
    simp only [run, Option.some.injEq] at h
    subst h
    exact hs
  | cons e es ih =>
    simp only [run] at h
    cases hstep : step client s e with
    | none => simp [hstep] at h
    | some u =>
      rw [hstep] at h
      exact ih u (silent_step client s u e hs hstep).1 h

theorem silent_outcome (client : Client) (ctx : Context) (cep : String) (s : State)
    (hinv : Inv client ctx cep s) (hs : Silent s) :
    s.ch = [] ∧ step client s Event.recv = none ∧
    (∀ x, s.ret = some x → x = (Result.zero, some "timeout exceeded")) ∧
    (s.ret = none → ∃ t, step client s Event.timeout = some t ∧
      t.ret = some (Result.zero, some "timeout exceeded")) := by
  refine ⟨hs.empty, ?_, ?_, ?_⟩
  · simp only [step, hs.empty]
    split <;> simp_all
  · rintro ⟨r, err⟩ hx
    cases err with
    | none =>
      have := hinv.received r hx
      rw [hs.unsent] at this
      simp at this
    | some m => exact (hinv.timedOut r m hx).2
  · intro hn
    exact ⟨{ s with ret := some timeoutReturn }, by simp [step, hn, hs.fired], rfl⟩

/-- C6: a call made with an already expired deadline returns the timeout failure at once,
with no worker step (no network response is waited for), and under every schedule the
timeout failure is the only thing it can return. More generally, once the deadline has fired
while no provider has delivered a result (nothing was sent and no worker holds a result), the
channel stays empty whatever happens next, so the receive branch is never taken, the deadline
branch can be taken, and the call returns the timeout failure only, also when a provider
would have answered with success: its request, bound to the context, fails instead. -/
theorem deadline_first_times_out (client : Client) (ctx : Context) (cep : String) :
    GetFasterAPIResult client ctx true cep [Event.timeout]
      = some (Result.zero, some "timeout exceeded") ∧
    (∀ schedule s, run client (init ctx cep true) schedule = some s →
      s.ch = [] ∧ step client s Event.recv = none ∧
      (∀ x, s.ret = some x → x = (Result.zero, some "timeout exceeded")) ∧
      (s.ret = none → ∃ t, step client s Event.timeout = some t ∧
        t.ret = some (Result.zero, some "timeout exceeded"))) ∧
    (∀ (expired : Bool) (pre : List Event) (u : State) (post : List Event) (s : State),
      run client (init ctx cep expired) pre = some u →
      u.done = true → u.sentLog = [] →
      (∀ w ∈ u.workers, w.phase = Phase.requesting ∨ w.phase = Phase.returned []) →
      run client u post = some s →
      s.ch = [] ∧ step client s Event.recv = none ∧
      (∀ x, s.ret = some x → x = (Result.zero, some "timeout exceeded")) ∧
      (s.ret = none → ∃ t, step client s Event.timeout = some t ∧
        t.ret = some (Result.zero, some "timeout exceeded"))) := by
  have hgen : ∀ (expired : Bool) (pre : List Event) (u : State) (post : List Event)
      (s : State), run client (init ctx cep expired) pre = some u →
      u.done = true → u.sentLog = [] →
      (∀ w ∈ u.workers, w.phase = Phase.requesting ∨ w.phase = Phase.returned []) →
      run client u post = some s →
      s.ch = [] ∧ step client s Event.recv = none ∧
      (∀ x, s.ret = some x → x = (Result.zero, some "timeout exceeded")) ∧
      (s.ret = none → ∃ t, step client s Event.timeout = some t ∧
        t.ret = some (Result.zero, some "timeout exceeded")) := by
    intro expired pre u post s hu hd hlog hidle hs
    have hinvu := inv_reachable client ctx cep expired pre u hu
    have hch : u.ch = [] := by
      apply List.eq_nil_iff_forall_not_mem.mpr
      intro r hr
      have := hinvu.buffered r hr
      rw [hlog] at this
      simp at this
    have hsil : Silent u :=
      ⟨hd, hch, hlog, fun w hw =>
        ⟨(inv_entry client ctx cep u hinvu w hw).1.trans hinvu.ctxEq.symm, hidle w hw⟩⟩
    exact silent_outcome client ctx cep s (inv_run client ctx cep post u s hinvu hs)
      (silent_run client post u s hsil hs)
  refine ⟨by simp [GetFasterAPIResult, run, step, init, timeoutReturn], ?_, hgen⟩
  intro schedule s h
  refine hgen true [] (init ctx cep true) schedule s rfl rfl rfl ?_ h
  intro w hw
  simp only [init, launch, List.mem_map] at hw
  obtain ⟨e, _, rfl⟩ := hw
  exact Or.inl rfl

/-- Witness of C6: BrasilAPI would answer with success, but the deadline fires while both
requests are in flight; both requests then fail, nothing is sent, and the call returns the
timeout failure. -/
theorem deadline_first_times_out_witness :
    run brasilOnlyClient (init sampleCtx "70150900" false)
        [Event.deadline, Event.respond 0, Event.respond 1]
      = some { ctx := sampleCtx,
               workers := [⟨sampleCtx, "BrasilAPI",
                              "https://brasilapi.com.br/api/cep/v1/70150900", Phase.returned []⟩,
                           ⟨sampleCtx, "ViaCEP", "http://viacep.com.br/ws/70150900/json/",
                              Phase.returned []⟩],
               ch := [], done := true, ret := none, sentLog := [] } ∧
    GetFasterAPIResult brasilOnlyClient sampleCtx false "70150900"
        [Event.deadline, Event.respond 0, Event.respond 1, Event.timeout]
      = some (Result.zero, some "timeout exceeded") ∧
    GetFasterAPIResult brasilOnlyClient sampleCtx true "70150900"
        [Event.respond 0, Event.send 0, Event.recv] = none ∧
    step brasilOnlyClient
      { ctx := sampleCtx,
        workers := [⟨sampleCtx, "BrasilAPI",
                       "https://brasilapi.com.br/api/cep/v1/70150900", Phase.returned []⟩,
                    ⟨sampleCtx, "ViaCEP", "http://viacep.com.br/ws/70150900/json/",
                       Phase.returned []⟩],
        ch := [], done := true, ret := none, sentLog := [] } Event.recv = none :=
  ⟨by decide, by decide, by decide,
   ((deadline_first_times_out brasilOnlyClient sampleCtx "70150900").2.2 false
      [Event.deadline] { init sampleCtx "70150900" false with done := true }
      [Event.respond 0, Event.respond 1] _ (by decide) rfl rfl (by decide) (by decide)).2.1⟩


end Cepservice
